import Mathlib

/-!
Verification of the candidate enumeration and counting engine of
`chinese_id_generator.py` (class `ChineseIdGenerator`).

Strings are modelled as `List Char` (Python str), unbounded Python integers
as `Int` (or `Nat` where the source value is manifestly non-negative, such
as day counts).  Generators are modelled as the lists they produce: every
generator in the source is finite and restartable (recomputed fresh per
call), so the list of produced elements is a faithful model, and purity /
determinism of each operation is inherent to the embedding.  The
`multiprocessing.Pool.imap_unordered` dispatch computes a pure function
(`process_batch`) on each element; the embedding performs the same map in
order, which realises the same multiset of results batch by batch.
`re.compile(p.replace('-', '.')).match(s)` for a pattern of digits and
dashes is modelled as an anchored prefix match in which `-` matches any
single character.
-/

namespace ChineseId

/-- Python `int(c)` for a digit character: its numeric value. -/
def digitVal (c : Char) : Nat := c.toNat - 48

/-- `self.weights = (7, 9, 10, 5, 8, 4, 2, 1, 6, 3, 7, 9, 10, 5, 8, 4, 2)`
(GB 11643-1999). -/
def weights : List Nat := [7, 9, 10, 5, 8, 4, 2, 1, 6, 3, 7, 9, 10, 5, 8, 4, 2]

/-- `self.check_codes = '10X98765432'`. -/
def check_codes : List Char := ['1', '0', 'X', '9', '8', '7', '6', '5', '4', '3', '2']

/-- `calculate_check_code(id_17)`:
`total = sum(int(c) * w for c, w in zip(id_17, self.weights))` followed by
`self.check_codes[total % 11]`.  The index `total % 11` is always in range,
so `getD` with a junk default is exact. -/
def calculate_check_code (id_17 : List Char) : Char :=
  check_codes.getD ((((id_17.zip weights).map fun q => digitVal q.1 * q.2).sum) % 11) ' '

/-- The zero-padded `w`-digit decimal form of `n` (Python `f"{n:0wd}"` for
`0 ≤ n < 10 ^ w`, the only situation in which the source formats numbers). -/
def padNum (w n : Nat) : List Char :=
  (List.range w).map fun i => Nat.digitChar (n / 10 ^ (w - 1 - i) % 10)

/-- Python `int(s)` on a string of decimal digits. -/
def digitsToNat (l : List Char) : Nat := l.foldl (fun a c => 10 * a + digitVal c) 0

/-- `all(c == '-' or c == o for c, o in zip(pattern, candidate))`. -/
def patMatch (p s : List Char) : Bool := (p.zip s).all fun q => q.1 == '-' || q.1 == q.2

/-- Model of `re.compile(p.replace('-', '.')).match(s)` for a pattern of
digits and dashes: anchored prefix match, `-` matching any character. -/
def rxMatch (p s : List Char) : Bool := decide (p.length ≤ s.length) && patMatch p s

/-- `pattern.replace('-', r)` (the subsequent `.ljust` in the source is a
no-op because `replace` preserves the length). -/
def subst (r : Char) (p : List Char) : List Char := p.map fun c => if c = '-' then r else c

/-- Python `range(lo, hi + 1)` over integers, as a list. -/
def intRange (lo hi : Int) : List Int :=
  (List.range (hi + 1 - lo).toNat).map fun (i : Nat) => lo + (i : Int)

/-- `generate_numbers(pattern, min_val, max_val)`: the list of integers the
generator yields.  Without a wildcard it yields `int(pattern)` when in
range; otherwise it clamps `[int(p.replace('-','0')), int(p.replace('-','9'))]`
to `[min_val, max_val]` and filters the range by per-position match. -/
def generate_numbers (pattern : List Char) (min_val max_val : Int) : List Int :=
  if '-' ∈ pattern then
    let lower : Int := (digitsToNat (subst '0' pattern) : Nat)
    let upper : Int := (digitsToNat (subst '9' pattern) : Nat)
    (intRange (max min_val lower) (min max_val upper)).filter fun num =>
      patMatch pattern (padNum pattern.length num.toNat)
  else
    let num : Int := (digitsToNat pattern : Nat)
    if min_val ≤ num ∧ num ≤ max_val then [num] else []

/-- `_is_leap_year(year)`: `year % 4 == 0 and (year % 100 != 0 or year % 400 == 0)`. -/
def is_leap_year (y : Int) : Bool := y % 4 == 0 && (y % 100 != 0 || y % 400 == 0)

/-- `calendar.monthrange(y, m)[1]` for `1 ≤ m ≤ 12` (the only months the
source ever passes): the number of days of month `m` in year `y`. -/
def monthDays (y m : Int) : Nat :=
  if m = 2 then (if is_leap_year y then 29 else 28)
  else if m = 4 ∨ m = 6 ∨ m = 9 ∨ m = 11 then 30
  else 31

/-- The dictionary returned by `parse_pattern`. -/
structure Pattern where
  region : List Char
  year : List Char
  month : List Char
  day : List Char
  sequence : List Char
  check : Char
  deriving DecidableEq

/-- `parse_pattern(pattern)`: fixed-width slicing of the 18-character input. -/
def parse_pattern (p : List Char) : Pattern :=
  { region := p.take 6
    year := (p.drop 6).take 4
    month := (p.drop 10).take 2
    day := (p.drop 12).take 2
    sequence := (p.drop 14).take 3
    check := p.getD 17 ' ' }

/-- `filter_regions(pattern)`: the whitelist keys (here an explicit list
`valid_regions`, the iteration order of the source's set) matched by
`re.compile(pattern.replace('-', '.')).match`. -/
def filter_regions (pattern : List Char) (valid_regions : List (List Char)) :
    List (List Char) :=
  valid_regions.filter fun code => rxMatch pattern code

/-- `_estimate_wildcard_days(month, common_max, leap_max, leap_count, total_years)`. -/
def estimate_wildcard_days (month : Int) (common_max leap_max leap_count total_years : Nat) :
    Nat :=
  if month ≠ 2 then total_years * common_max
  else leap_count * leap_max + (total_years - leap_count) * common_max

/-- `_calc_group_days(years, day_pattern, max_day)`: clamp the day range
derived from the pattern to `[1, max_day]` and count the per-position
regex matches, times the number of years in the group. -/
def calc_group_days (years : List Int) (day_pattern : List Char) (max_day : Nat) : Nat :=
  if years = [] then 0
  else
    let day_length := day_pattern.length
    let lower := digitsToNat (subst '0' day_pattern)
    let upper := digitsToNat (subst '9' day_pattern)
    let start := max 1 lower
    let stop := min max_day upper
    if start > stop then 0
    else
      years.length * (((List.range (stop + 1 - start)).map fun i => start + i).countP
        fun d => rxMatch day_pattern (padNum day_length d))

/-- `_calculate_exact_days(years, month, day_pattern, common_max, leap_max)`:
the leap and common year groups are processed (in the source, on a thread
pool) and their results summed. -/
def calculate_exact_days (years : List Int) (month : Int) (day_pattern : List Char)
    (common_max leap_max : Nat) : Nat :=
  calc_group_days (years.filter fun y => is_leap_year y) day_pattern
      (if month = 2 then leap_max else common_max)
    + calc_group_days (years.filter fun y => !is_leap_year y) day_pattern common_max

/-- The body of the `for month in months` loop of `estimate_dates`, with
`leap_years`/`total_years` precomputed as in the source. -/
def month_contribution (years : List Int) (leap_years total_years : Nat)
    (day_part : List Char) (month : Int) : Nat :=
  let common_max_day := monthDays 2001 month
  let leap_max_day := if month = 2 then 29 else common_max_day
  if !(day_part.any Char.isDigit) ∧ day_part.count '-' > 0 then
    estimate_wildcard_days month common_max_day leap_max_day leap_years total_years
  else
    calculate_exact_days years month day_part common_max_day leap_max_day

/-- `estimate_dates(pattern)`: the advisory date-combination count. -/
def estimate_dates (p : Pattern) : Nat :=
  let years := generate_numbers p.year 1900 2999
  if years = [] then 0
  else
    let leap_years := (years.filter fun y => is_leap_year y).length
    let total_years := years.length
    let months := generate_numbers p.month 1 12
    if months = [] then 0
    else (months.map fun m => month_contribution years leap_years total_years p.day m).sum

/-- `generate_dates(year_pattern, month_pattern, day_pattern)`: the list of
`YYYYMMDD` strings the generator yields.  The source's `try/except` around
`calendar.monthrange` never fires, because every generated month lies in
`[1, 12]`. -/
def generate_dates (yp mp dp : List Char) : List (List Char) :=
  (generate_numbers yp 1900 2999).flatMap fun y =>
    (generate_numbers mp 1 12).flatMap fun m =>
      (generate_numbers dp 1 (monthDays y m)).map fun d =>
        padNum 4 y.toNat ++ padNum 2 m.toNat ++ padNum 2 d.toNat

/-- `itertools.product(*parts)` over a list of per-position alternatives,
as `''.join`-ed strings (rightmost position varies fastest). -/
def listProd : List (List Char) → List (List Char)
  | [] => [[]]
  | xs :: rest => xs.flatMap fun x => (listProd rest).map fun r => x :: r

/-- `generate_sequence(pattern)`: the sequence-code candidates. -/
def generate_sequence (pattern : List Char) : List (List Char) :=
  if pattern.count '-' = 0 then [pattern]
  else listProd (pattern.map fun c => if c = '-' then "0123456789".data else [c])

/-- `generate_components(pattern)`: raises `ValueError` when no region
matches (modelled as `Except.error`), otherwise the cartesian product
region × date × sequence. -/
def generate_components (p : Pattern) (valid_regions : List (List Char)) :
    Except String (List (List Char × List Char × List Char)) :=
  let regions := filter_regions p.region valid_regions
  if regions = [] then Except.error "无匹配的行政区划代码"
  else
    let dates := generate_dates p.year p.month p.day
    Except.ok (regions.flatMap fun r => dates.flatMap fun d =>
      (generate_sequence p.sequence).map fun s => (r, d, s))

/-- `process_batch(args)`: build the 17-digit prefix and append its check
code; returns a singleton list. -/
def process_batch (args : List Char × List Char × List Char) : List (List Char) :=
  let id_17 := args.1 ++ args.2.1 ++ args.2.2
  [id_17 ++ [calculate_check_code id_17]]

/-- The source's dedup loop (`seen` set plus `final` accumulator),
with the set of already-seen strings carried as a list. -/
def dedupAux (seen : List (List Char)) : List (List Char) → List (List Char)
  | [] => []
  | x :: xs => if x ∈ seen then dedupAux seen xs else x :: dedupAux (x :: seen) xs

/-- `parallel_generate`'s final dedup pass: keep each string at its first
occurrence. -/
def dedupFirst (l : List (List Char)) : List (List Char) := dedupAux [] l

/-- `parallel_generate(input_id)`: parse, enumerate components, compute the
check code for each (the pool dispatch of `process_batch`), filter by
`check_char in ('-', id_num[-1])`, and dedup preserving first-seen order.
The progress bar and the advisory `estimate_total` (whose failure is
swallowed by `try/except`) do not affect the returned list and are not
modelled. -/
def parallel_generate (input_id : List Char) (valid_regions : List (List Char)) :
    Except String (List (List Char)) :=
  let pattern := parse_pattern input_id
  (generate_components pattern valid_regions).map fun comps =>
    dedupFirst (((comps.map process_batch).flatten).filter fun id_num =>
      pattern.check == '-' || pattern.check == id_num.getLastD ' ')

/-- `estimate_total(pattern)`: product of the three per-dimension counts. -/
def estimate_total (p : Pattern) (valid_regions : List (List Char)) : Nat :=
  (filter_regions p.region valid_regions).length * estimate_dates p
    * 10 ^ (p.sequence.count '-')

/-! ### Digit and decimal-representation lemmas -/

theorem isDigit_toNat {c : Char} (h : c.isDigit) : 48 ≤ c.toNat ∧ c.toNat ≤ 57 := by
  simp only [Char.isDigit, Bool.and_eq_true, decide_eq_true_eq] at h
  obtain ⟨h1, h2⟩ := h
  exact ⟨h1, h2⟩

theorem digitVal_le_nine {c : Char} (h : c.isDigit) : digitVal c ≤ 9 := by
  have := isDigit_toNat h
  unfold digitVal
  omega

theorem digitChar_fin :
    ∀ d : Fin 10, (Nat.digitChar d).isDigit = true ∧ digitVal (Nat.digitChar d) = (d : Nat) := by
  decide

theorem digitChar_isDigit {d : Nat} (h : d < 10) : (Nat.digitChar d).isDigit := by
  exact (digitChar_fin ⟨d, h⟩).1

theorem digitVal_digitChar {d : Nat} (h : d < 10) : digitVal (Nat.digitChar d) = d := by
  exact (digitChar_fin ⟨d, h⟩).2

theorem digitChar_digitVal {c : Char} (h : c.isDigit) : Nat.digitChar (digitVal c) = c := by
  obtain ⟨h1, h2⟩ := isDigit_toNat h
  have hofn : Char.ofNat c.toNat = c := Char.ofNat_toNat c
  set k := c.toNat - 48 with hk
  have hc : c.toNat = 48 + k := by omega
  have hk9 : k ≤ 9 := by omega
  have hdv : digitVal c = k := by unfold digitVal; omega
  rw [hdv]
  interval_cases k <;> (rw [hc] at hofn; exact hofn.symm.trans (by rfl) |>.symm)

theorem digitsToNat_foldl (a : Nat) (l : List Char) :
    l.foldl (fun x c => 10 * x + digitVal c) a = a * 10 ^ l.length + digitsToNat l := by
  induction l generalizing a with
  | nil => simp [digitsToNat]
  | cons c t ih =>
    simp only [List.foldl_cons, List.length_cons]
    rw [ih (10 * a + digitVal c)]
    have ht : digitsToNat (c :: t) = digitVal c * 10 ^ t.length + digitsToNat t := by
      unfold digitsToNat
      simp only [List.foldl_cons]
      rw [ih (10 * 0 + digitVal c)]
      ring_nf
      simp [digitsToNat]
    rw [ht]
    ring

theorem digitsToNat_cons (c : Char) (t : List Char) :
    digitsToNat (c :: t) = digitVal c * 10 ^ t.length + digitsToNat t := by
  unfold digitsToNat
  simp only [List.foldl_cons]
  rw [digitsToNat_foldl (10 * 0 + digitVal c)]
  ring_nf
  simp [digitsToNat]

theorem digitsToNat_append (a b : List Char) :
    digitsToNat (a ++ b) = digitsToNat a * 10 ^ b.length + digitsToNat b := by
  unfold digitsToNat
  rw [List.foldl_append]
  exact digitsToNat_foldl _ b

theorem digitsToNat_lt (l : List Char) (h : ∀ c ∈ l, digitVal c ≤ 9) :
    digitsToNat l < 10 ^ l.length := by
  induction l with
  | nil => simp [digitsToNat]
  | cons c t ih =>
    rw [digitsToNat_cons]
    have h1 : digitVal c ≤ 9 := h c (by simp)
    have h2 : digitsToNat t < 10 ^ t.length := ih fun x hx => h x (by simp [hx])
    have : (10 : Nat) ^ (c :: t).length = 10 * 10 ^ t.length := by
      simp [List.length_cons, pow_succ]; ring
    rw [this]
    nlinarith

theorem padNum_length (w n : Nat) : (padNum w n).length = w := by simp [padNum]

theorem padNum_getElem (w n i : Nat) (hi : i < w) :
    (padNum w n).getD i ' ' = Nat.digitChar (n / 10 ^ (w - 1 - i) % 10) := by
  have hi' : i < (padNum w n).length := by rw [padNum_length]; exact hi
  rw [List.getD_eq_getElem _ _ hi']
  simp [padNum]

theorem padNum_isDigit (w n : Nat) : ∀ c ∈ padNum w n, c.isDigit := by
  intro c hc
  simp only [padNum, List.mem_map] at hc
  obtain ⟨i, _, rfl⟩ := hc
  exact digitChar_isDigit (Nat.mod_lt _ (by norm_num))

theorem div_pow_mod_ten (n w i : Nat) (hi : i < w) :
    n / 10 ^ (w - 1 - i) % 10 = n % 10 ^ w / 10 ^ (w - 1 - i) % 10 := by
  have hpos : 0 < (10 : Nat) ^ (w - 1 - i) := Nat.pos_pow_of_pos _ (by norm_num)
  have hpow : (10 : Nat) ^ w = 10 ^ (w - 1 - i) * 10 ^ (i + 1) := by
    rw [← pow_add]
    congr 1
    omega
  have key : n = 10 ^ w * (n / 10 ^ w) + n % 10 ^ w := (Nat.div_add_mod n (10 ^ w)).symm
  have hsplit : (10 : Nat) ^ w * (n / 10 ^ w) + n % 10 ^ w
      = 10 ^ (w - 1 - i) * (10 * (n / 10 ^ w * 10 ^ i)) + n % 10 ^ w := by
    rw [hpow, pow_succ]
    ring
  conv_lhs => rw [key, hsplit]
  rw [Nat.mul_add_div hpos, Nat.mul_add_mod]

theorem padNum_succ (w n : Nat) :
    padNum (w + 1) n = Nat.digitChar (n / 10 ^ w % 10) :: padNum w (n % 10 ^ w) := by
  unfold padNum
  rw [List.range_succ_eq_map, List.map_cons, List.map_map]
  refine List.cons_eq_cons.mpr ⟨by norm_num, ?_⟩
  apply List.map_congr_left
  intro i hi
  rw [List.mem_range] at hi
  simp only [Function.comp_apply]
  have he : w + 1 - 1 - Nat.succ i = w - 1 - i := by omega
  rw [he]
  rw [div_pow_mod_ten n w i hi]

theorem digitsToNat_padNum (w n : Nat) (h : n < 10 ^ w) : digitsToNat (padNum w n) = n := by
  induction w generalizing n with
  | zero =>
    simp only [pow_zero, Nat.lt_one_iff] at h
    simp [padNum, digitsToNat, h]
  | succ w ih =>
    rw [padNum_succ, digitsToNat_cons, padNum_length]
    have hdiv : n / 10 ^ w < 10 := by
      rw [Nat.div_lt_iff_lt_mul (Nat.pos_pow_of_pos _ (by norm_num))]
      calc n < 10 ^ (w + 1) := h
        _ = 10 * 10 ^ w := by rw [pow_succ]; ring
    rw [digitVal_digitChar (Nat.mod_lt _ (by norm_num))]
    rw [ih _ (Nat.mod_lt _ (Nat.pos_pow_of_pos _ (by norm_num)))]
    have hmod : n / 10 ^ w % 10 = n / 10 ^ w := Nat.mod_eq_of_lt hdiv
    rw [hmod, mul_comm]
    exact Nat.div_add_mod n (10 ^ w)

theorem padNum_digitsToNat (l : List Char) (h : ∀ c ∈ l, c.isDigit) :
    padNum l.length (digitsToNat l) = l := by
  induction l with
  | nil => simp [padNum]
  | cons c t ih =>
    have hct : digitsToNat (c :: t) = digitVal c * 10 ^ t.length + digitsToNat t :=
      digitsToNat_cons c t
    have htlt : digitsToNat t < 10 ^ t.length :=
      digitsToNat_lt t fun x hx => digitVal_le_nine (h x (by simp [hx]))
    have hcd : c.isDigit := h c (by simp)
    have hc9 : digitVal c ≤ 9 := digitVal_le_nine hcd
    simp only [List.length_cons]
    rw [padNum_succ, hct]
    have hflip : digitVal c * 10 ^ t.length + digitsToNat t
        = digitsToNat t + 10 ^ t.length * digitVal c := by ring
    have hdiv : (digitVal c * 10 ^ t.length + digitsToNat t) / 10 ^ t.length = digitVal c := by
      rw [hflip, Nat.add_mul_div_left _ _ (Nat.pos_pow_of_pos _ (by norm_num)),
        Nat.div_eq_of_lt htlt, zero_add]
    have hmod : (digitVal c * 10 ^ t.length + digitsToNat t) % 10 ^ t.length = digitsToNat t := by
      rw [hflip, Nat.add_mul_mod_self_left, Nat.mod_eq_of_lt htlt]
    rw [hdiv, hmod, Nat.mod_eq_of_lt (by omega : digitVal c < 10), digitChar_digitVal hcd,
      ih fun x hx => h x (by simp [hx])]

/-! ### Pattern matching and range lemmas -/

theorem patMatch_iff (p : List Char) :
    ∀ s : List Char, p.length ≤ s.length →
      (patMatch p s = true ↔
        ∀ i < p.length, p.getD i ' ' = '-' ∨ p.getD i ' ' = s.getD i ' ') := by
  induction p with
  | nil => intro s _; simp [patMatch]
  | cons c t ih =>
    intro s hlen
    cases s with
    | nil => simp at hlen
    | cons x s' =>
      simp only [List.length_cons, Nat.succ_le_succ_iff] at hlen
      unfold patMatch
      simp only [List.zip_cons_cons, List.all_cons, Bool.and_eq_true, Bool.or_eq_true,
        beq_iff_eq]
      rw [show ((t.zip s').all fun q => q.1 == '-' || q.1 == q.2) = patMatch t s' from rfl]
      rw [ih s' hlen]
      constructor
      · rintro ⟨h0, ht⟩ i hi
        cases i with
        | zero => simpa using h0
        | succ j =>
          simp only [List.getD_cons_succ]
          exact ht j (by simpa using hi)
      · intro h
        refine ⟨by simpa using h 0 (by simp), fun j hj => ?_⟩
        have := h (j + 1) (by simpa using hj)
        simpa using this

theorem rxMatch_iff (p s : List Char) :
    rxMatch p s = true ↔
      p.length ≤ s.length ∧
        ∀ i < p.length, p.getD i ' ' = '-' ∨ p.getD i ' ' = s.getD i ' ' := by
  unfold rxMatch
  simp only [Bool.and_eq_true, decide_eq_true_eq]
  constructor
  · rintro ⟨h1, h2⟩
    exact ⟨h1, (patMatch_iff p s h1).1 h2⟩
  · rintro ⟨h1, h2⟩
    exact ⟨h1, (patMatch_iff p s h1).2 h2⟩

theorem mem_intRange (n lo hi : Int) : n ∈ intRange lo hi ↔ lo ≤ n ∧ n ≤ hi := by
  unfold intRange
  simp only [List.mem_map, List.mem_range]
  constructor
  · rintro ⟨i, hi', rfl⟩
    rw [Int.lt_toNat] at hi'
    omega
  · rintro ⟨h1, h2⟩
    refine ⟨(n - lo).toNat, ?_, ?_⟩
    · rw [Int.lt_toNat, Int.toNat_of_nonneg (by omega)]
      omega
    · rw [Int.toNat_of_nonneg (by omega)]
      omega

theorem intRange_pairwise (lo hi : Int) : (intRange lo hi).Pairwise (· < ·) := by
  unfold intRange
  rw [List.pairwise_map]
  refine (List.pairwise_lt_range _).imp ?_
  intro a b hab
  show lo + (a : Int) < lo + (b : Int)
  omega

theorem subst_length (r : Char) (p : List Char) : (subst r p).length = p.length := by
  simp [subst]

theorem subst_getD (r : Char) (p : List Char) (i : Nat) (hi : i < p.length) :
    (subst r p).getD i ' ' = if p.getD i ' ' = '-' then r else p.getD i ' ' := by
  have hi' : i < (subst r p).length := by rw [subst_length]; exact hi
  rw [List.getD_eq_getElem _ _ hi', List.getD_eq_getElem _ _ hi]
  simp [subst]

theorem subst_digit_bound {p : List Char} (hp : ∀ c ∈ p, c.isDigit ∨ c = '-')
    {r : Char} (hr : r.isDigit) : ∀ c ∈ subst r p, digitVal c ≤ 9 := by
  intro c hc
  simp only [subst, List.mem_map] at hc
  obtain ⟨x, hx, rfl⟩ := hc
  by_cases hxd : x = '-'
  · simp only [hxd, if_pos rfl]
    exact digitVal_le_nine hr
  · simp only [if_neg hxd]
    rcases hp x hx with h | h
    · exact digitVal_le_nine h
    · exact absurd h hxd

theorem padNum_digit_bound (w n : Nat) : ∀ c ∈ padNum w n, digitVal c ≤ 9 :=
  fun c hc => digitVal_le_nine (padNum_isDigit w n c hc)

theorem digitsToNat_le_pointwise (l1 : List Char) :
    ∀ l2 : List Char, l1.length = l2.length → (∀ c ∈ l1, digitVal c ≤ 9) →
      (∀ i < l1.length, digitVal (l1.getD i ' ') ≤ digitVal (l2.getD i ' ')) →
      digitsToNat l1 ≤ digitsToNat l2 := by
  induction l1 with
  | nil => intro l2 _ _ _; simp [digitsToNat]
  | cons c t ih =>
    intro l2 hlen hb h
    cases l2 with
    | nil => simp at hlen
    | cons c2 t2 =>
      simp only [List.length_cons, Nat.succ_inj'] at hlen
      rw [digitsToNat_cons, digitsToNat_cons, hlen]
      have h0 : digitVal c ≤ digitVal c2 := by simpa using h 0 (by simp)
      have ht : digitsToNat t ≤ digitsToNat t2 := by
        refine ih t2 hlen (fun x hx => hb x (by simp [hx])) fun i hi => ?_
        have := h (i + 1) (by simpa using hi)
        simpa using this
      have htlt : digitsToNat t < 10 ^ t.length :=
        digitsToNat_lt t fun x hx => hb x (by simp [hx])
      rcases Nat.lt_or_ge (digitVal c) (digitVal c2) with hlt | hge
      · have hpow : (0 : Nat) < 10 ^ t2.length := Nat.pos_pow_of_pos _ (by norm_num)
        rw [← hlen]
        nlinarith
      · have : digitVal c = digitVal c2 := le_antisymm h0 hge
        rw [this, ← hlen]
        omega

/-- The claim's characterisation of a yielded value: `n` has a zero-padded
`len(p)`-digit decimal form (i.e. `0 ≤ n < 10 ^ len(p)`) that agrees with
`p` at every non-wildcard position. -/
def matchesPadded (p : List Char) (n : Int) : Prop :=
  0 ≤ n ∧ n < (10 : Int) ^ p.length ∧
    ∀ i < p.length, p.getD i ' ' = '-' ∨ p.getD i ' ' = (padNum p.length n.toNat).getD i ' '

instance (p : List Char) (n : Int) : Decidable (matchesPadded p n) := by
  unfold matchesPadded
  infer_instance

theorem pow_cast_ten (w : Nat) : ((10 ^ w : Nat) : Int) = (10 : Int) ^ w := by
  push_cast
  ring

theorem matchesPadded_iff {p : List Char} {n : Int} (hn0 : 0 ≤ n)
    (hnlt : n.toNat < 10 ^ p.length) :
    matchesPadded p n ↔
      ∀ i < p.length,
        p.getD i ' ' = '-' ∨ p.getD i ' ' = (padNum p.length n.toNat).getD i ' ' := by
  unfold matchesPadded
  have hcast := pow_cast_ten p.length
  constructor
  · exact fun h => h.2.2
  · intro h
    exact ⟨hn0, by omega, h⟩

theorem getD_mem_of_lt {l : List Char} {i : Nat} (hi : i < l.length) : l.getD i ' ' ∈ l := by
  rw [List.getD_eq_getElem _ _ hi]
  exact List.getElem_mem hi

theorem bounds_of_matches {p : List Char} (hp : ∀ c ∈ p, c.isDigit ∨ c = '-') {n : Int}
    (hm : matchesPadded p n) :
    (digitsToNat (subst '0' p) : Int) ≤ n ∧ n ≤ (digitsToNat (subst '9' p) : Int) := by
  obtain ⟨hn0, hnlt, hpos⟩ := hm
  have hcast := pow_cast_ten p.length
  have hmlt : n.toNat < 10 ^ p.length := by omega
  have hlow : digitsToNat (subst '0' p) ≤ digitsToNat (padNum p.length n.toNat) := by
    refine digitsToNat_le_pointwise _ _ (by rw [subst_length, padNum_length])
      (subst_digit_bound hp (by decide)) ?_
    intro i hi
    rw [subst_length] at hi
    rw [subst_getD _ _ _ hi]
    by_cases hdash : p.getD i ' ' = '-'
    · rw [if_pos hdash]
      have h0 : digitVal '0' = 0 := rfl
      rw [h0]
      exact Nat.zero_le _
    · rcases hpos i hi with hw | he
      · exact absurd hw hdash
      · rw [if_neg hdash, he]
  have hup : digitsToNat (padNum p.length n.toNat) ≤ digitsToNat (subst '9' p) := by
    refine digitsToNat_le_pointwise _ _ (by rw [padNum_length, subst_length])
      (padNum_digit_bound _ _) ?_
    intro i hi
    rw [padNum_length] at hi
    rw [subst_getD _ _ _ hi]
    by_cases hdash : p.getD i ' ' = '-'
    · rw [if_pos hdash]
      have h9 : digitVal '9' = 9 := rfl
      rw [h9]
      exact digitVal_le_nine (padNum_isDigit _ _ _
        (getD_mem_of_lt (by rw [padNum_length]; exact hi)))
    · rcases hpos i hi with hw | he
      · exact absurd hw hdash
      · rw [if_neg hdash, ← he]
  rw [digitsToNat_padNum _ _ hmlt] at hlow hup
  omega

theorem matches_nowildcard_eq {p : List Char} (hdash : '-' ∉ p) {n : Int}
    (hm : matchesPadded p n) : n = (digitsToNat p : Int) := by
  obtain ⟨hn0, hnlt, hpos⟩ := hm
  have hcast := pow_cast_ten p.length
  have hmlt : n.toNat < 10 ^ p.length := by omega
  have hpe : p = padNum p.length n.toNat := by
    refine List.ext_getElem (by rw [padNum_length]) fun i h1 h2 => ?_
    rcases hpos i h1 with hw | he
    · rw [List.getD_eq_getElem _ _ h1] at hw
      exact absurd (hw ▸ List.getElem_mem h1) hdash
    · rw [List.getD_eq_getElem _ _ h1, List.getD_eq_getElem _ _ h2] at he
      exact he
  have : digitsToNat p = n.toNat := by
    rw [hpe]
    exact digitsToNat_padNum _ _ hmlt
  omega

theorem matches_self {p : List Char} (hall : ∀ c ∈ p, c.isDigit) :
    matchesPadded p ((digitsToNat p : Nat) : Int) := by
  have hlt : digitsToNat p < 10 ^ p.length :=
    digitsToNat_lt p fun c hc => digitVal_le_nine (hall c hc)
  have hcast := pow_cast_ten p.length
  refine ⟨Int.natCast_nonneg _, by omega, ?_⟩
  intro i hi
  right
  rw [Int.toNat_natCast, padNum_digitsToNat p hall]

theorem mem_generate_numbers_iff (p : List Char)
    (hp : ∀ c ∈ p, c.isDigit ∨ c = '-') (min_val max_val : Int) :
    ∀ n : Int, n ∈ generate_numbers p min_val max_val ↔
        min_val ≤ n ∧ n ≤ max_val ∧ matchesPadded p n := by
  have hup9 : digitsToNat (subst '9' p) < 10 ^ p.length := by
    have := digitsToNat_lt (subst '9' p) (subst_digit_bound hp (by decide))
    rwa [subst_length] at this
  have hcast := pow_cast_ten p.length
  · intro n
    unfold generate_numbers
    split
    case isTrue hdash =>
      rw [List.mem_filter, mem_intRange]
      constructor
      · rintro ⟨⟨hs, he⟩, hmatch⟩
        have hlow : (digitsToNat (subst '0' p) : Int) ≤ n := le_trans (le_max_right _ _) hs
        have hmin : min_val ≤ n := le_trans (le_max_left _ _) hs
        have hup : n ≤ (digitsToNat (subst '9' p) : Int) := le_trans he (min_le_right _ _)
        have hmax : n ≤ max_val := le_trans he (min_le_left _ _)
        have hn0 : 0 ≤ n := le_trans (Int.natCast_nonneg _) hlow
        have hnlt : n.toNat < 10 ^ p.length := by omega
        exact ⟨hmin, hmax, (matchesPadded_iff hn0 hnlt).2
          ((patMatch_iff p _ (by rw [padNum_length])).1 hmatch)⟩
      · rintro ⟨h1, h2, hm⟩
        have hb := bounds_of_matches hp hm
        have hn0 : 0 ≤ n := hm.1
        have hnlt : n.toNat < 10 ^ p.length := by omega
        exact ⟨⟨max_le h1 hb.1, le_min h2 hb.2⟩,
          (patMatch_iff p _ (by rw [padNum_length])).2 ((matchesPadded_iff hn0 hnlt).1 hm)⟩
    case isFalse hdash =>
      have hall : ∀ c ∈ p, c.isDigit := by
        intro c hc
        rcases hp c hc with h | h
        · exact h
        · exact absurd (h ▸ hc) hdash
      dsimp only
      split
      case isTrue hcond =>
        simp only [List.mem_singleton]
        constructor
        · rintro rfl
          exact ⟨hcond.1, hcond.2, matches_self hall⟩
        · rintro ⟨h1, h2, hm⟩
          exact matches_nowildcard_eq hdash hm
      case isFalse hcond =>
        simp only [List.not_mem_nil, false_iff]
        rintro ⟨h1, h2, hm⟩
        have := matches_nowildcard_eq hdash hm
        subst this
        exact hcond ⟨h1, h2⟩

theorem generate_numbers_pairwise (p : List Char) (min_val max_val : Int) :
    (generate_numbers p min_val max_val).Pairwise (· < ·) := by
  unfold generate_numbers
  split
  · exact (intRange_pairwise _ _).filter _
  · dsimp only
    split
    · simp
    · simp

theorem mem_generate_numbers_bounds {p : List Char} {min_val max_val n : Int}
    (h : n ∈ generate_numbers p min_val max_val) : min_val ≤ n ∧ n ≤ max_val := by
  unfold generate_numbers at h
  split at h
  · rw [List.mem_filter, mem_intRange] at h
    obtain ⟨⟨hs, he⟩, _⟩ := h
    exact ⟨le_trans (le_max_left _ _) hs, le_trans he (min_le_left _ _)⟩
  · dsimp only at h
    split at h
    case isTrue hcond =>
      rw [List.mem_singleton] at h
      subst h
      exact hcond
    case isFalse => simp at h

/-- C3: for a nonempty digit/wildcard pattern `p` and integers
`min_val ≤ max_val`, `generate_numbers(p, min_val, max_val)` yields exactly
the integers of `[min_val, max_val]` whose zero-padded `len(p)`-digit
decimal form agrees with `p` at every non-wildcard position, in strictly
ascending order.  The sequence is finite (a list) and identical on every
call because the embedding is a pure function. -/
theorem generate_numbers_spec (p : List Char) (hne : p ≠ [])
    (hp : ∀ c ∈ p, c.isDigit ∨ c = '-') (min_val max_val : Int)
    (hminmax : min_val ≤ max_val) :
    (∀ n : Int, n ∈ generate_numbers p min_val max_val ↔
        min_val ≤ n ∧ n ≤ max_val ∧ matchesPadded p n)
      ∧ (generate_numbers p min_val max_val).Pairwise (· < ·) :=
  ⟨mem_generate_numbers_iff p hp min_val max_val,
    generate_numbers_pairwise p min_val max_val⟩

/-- Witness for C3 at the concrete pattern `"19-0"` on `[1900, 2999]`. -/
theorem generate_numbers_spec_witness :
    (∀ n : Int, n ∈ generate_numbers ['1', '9', '-', '0'] 1900 2999 ↔
        1900 ≤ n ∧ n ≤ 2999 ∧ matchesPadded ['1', '9', '-', '0'] n)
      ∧ (generate_numbers ['1', '9', '-', '0'] 1900 2999).Pairwise (· < ·) :=
  generate_numbers_spec ['1', '9', '-', '0'] (by decide) (by decide) 1900 2999 (by decide)

/-! ### Dates -/

/-- The spec's leap-year rule: divisible by 4 and (not divisible by 100,
or divisible by 400). -/
def specLeap (y : Int) : Prop := y % 4 = 0 ∧ (y % 100 ≠ 0 ∨ y % 400 = 0)

instance (y : Int) : Decidable (specLeap y) := by
  unfold specLeap
  infer_instance

theorem is_leap_year_iff (y : Int) : is_leap_year y = true ↔ specLeap y := by
  unfold is_leap_year specLeap
  simp

/-- The true day count of `(year, month)` under the spec's leap rule. -/
def specDays (y m : Int) : Nat :=
  if m = 2 then (if specLeap y then 29 else 28)
  else if m = 4 ∨ m = 6 ∨ m = 9 ∨ m = 11 then 30
  else 31

theorem monthDays_eq_specDays (y m : Int) : monthDays y m = specDays y m := by
  unfold monthDays specDays
  simp only [is_leap_year_iff]

theorem monthDays_le (y m : Int) : monthDays y m ≤ 31 := by
  unfold monthDays
  split_ifs <;> norm_num

theorem digitsToNat_date (y m d : Int) (hy : y ≤ 2999) (hm : m ≤ 99) (hd : d ≤ 99) :
    digitsToNat (padNum 4 y.toNat ++ padNum 2 m.toNat ++ padNum 2 d.toNat)
      = y.toNat * 10000 + m.toNat * 100 + d.toNat := by
  have e4 : (10 : Nat) ^ 4 = 10000 := by norm_num
  have e2 : (10 : Nat) ^ 2 = 100 := by norm_num
  rw [digitsToNat_append, digitsToNat_append, padNum_length, padNum_length,
    digitsToNat_padNum 4 y.toNat (by omega), digitsToNat_padNum 2 m.toNat (by omega),
    digitsToNat_padNum 2 d.toNat (by omega), e2]
  ring

theorem date_key_lt {y1 m1 d1 y2 m2 d2 : Int}
    (hy1 : 1900 ≤ y1 ∧ y1 ≤ 2999) (hm1 : 1 ≤ m1 ∧ m1 ≤ 12) (hd1 : 1 ≤ d1 ∧ d1 ≤ 31)
    (hy2 : 1900 ≤ y2 ∧ y2 ≤ 2999) (hm2 : 1 ≤ m2 ∧ m2 ≤ 12) (hd2 : 1 ≤ d2 ∧ d2 ≤ 31)
    (hlt : y1 < y2 ∨ (y1 = y2 ∧ (m1 < m2 ∨ (m1 = m2 ∧ d1 < d2)))) :
    digitsToNat (padNum 4 y1.toNat ++ padNum 2 m1.toNat ++ padNum 2 d1.toNat)
      < digitsToNat (padNum 4 y2.toNat ++ padNum 2 m2.toNat ++ padNum 2 d2.toNat) := by
  rw [digitsToNat_date y1 m1 d1 (by omega) (by omega) (by omega),
    digitsToNat_date y2 m2 d2 (by omega) (by omega) (by omega)]
  omega

/-- The inner `year`-fixed part of `generate_dates`. -/
theorem mem_dateInner {mp dp : List Char} {y : Int} {x : List Char}
    (hx : x ∈ (generate_numbers mp 1 12).flatMap fun m =>
        (generate_numbers dp 1 ((monthDays y m : Nat) : Int)).map fun d =>
          padNum 4 y.toNat ++ padNum 2 m.toNat ++ padNum 2 d.toNat) :
    ∃ m d : Int, 1 ≤ m ∧ m ≤ 12 ∧ 1 ≤ d ∧ d ≤ 31 ∧
      x = padNum 4 y.toNat ++ padNum 2 m.toNat ++ padNum 2 d.toNat := by
  simp only [List.mem_flatMap, List.mem_map] at hx
  obtain ⟨m, hm, d, hd, rfl⟩ := hx
  have hmb := mem_generate_numbers_bounds hm
  have hdb := mem_generate_numbers_bounds hd
  have hdays : ((monthDays y m : Nat) : Int) ≤ 31 := by
    have := monthDays_le y m
    omega
  exact ⟨m, d, hmb.1, hmb.2, hdb.1, le_trans hdb.2 hdays, rfl⟩

/-- C4: `generate_dates` yields exactly the `YYYYMMDD` strings assembled
from a year yielded by `generate_numbers(year-pattern, 1900, 2999)`, a
month yielded by `generate_numbers(month-pattern, 1, 12)` and a day
yielded by `generate_numbers(day-pattern, 1, N)` with `N` the true day
count of `(year, month)` under the leap rule "divisible by 4 and (not
divisible by 100, or divisible by 400)"; and the output is ordered by
year, then month, then day, ascending.  The ordering is expressed through
the numeric value of the 8-digit string, which for dates with
`1900 ≤ year ≤ 2999`, `1 ≤ month ≤ 12`, `1 ≤ day ≤ 31` increases exactly
in the lexicographic (year, month, day) order. -/
theorem generate_dates_spec (yp mp dp : List Char)
    (hyne : yp ≠ []) (hyc : ∀ c ∈ yp, c.isDigit ∨ c = '-')
    (hmne : mp ≠ []) (hmc : ∀ c ∈ mp, c.isDigit ∨ c = '-')
    (hdne : dp ≠ []) (hdc : ∀ c ∈ dp, c.isDigit ∨ c = '-') :
    (∀ s : List Char, s ∈ generate_dates yp mp dp ↔
        ∃ y m d : Int, y ∈ generate_numbers yp 1900 2999 ∧
          m ∈ generate_numbers mp 1 12 ∧
          d ∈ generate_numbers dp 1 ((specDays y m : Nat) : Int) ∧
          s = padNum 4 y.toNat ++ padNum 2 m.toNat ++ padNum 2 d.toNat)
      ∧ (generate_dates yp mp dp).Pairwise fun s t => digitsToNat s < digitsToNat t := by
  constructor
  · intro s
    unfold generate_dates
    simp only [List.mem_flatMap, List.mem_map, monthDays_eq_specDays]
    constructor
    · rintro ⟨y, hy, m, hm, d, hd, rfl⟩
      exact ⟨y, m, d, hy, hm, hd, rfl⟩
    · rintro ⟨y, m, d, hy, hm, hd, rfl⟩
      exact ⟨y, hy, m, hm, d, hd, rfl⟩
  · unfold generate_dates
    rw [List.pairwise_flatMap]
    constructor
    · intro y hy
      have hyb := mem_generate_numbers_bounds hy
      rw [List.pairwise_flatMap]
      constructor
      · intro m hm
        have hmb := mem_generate_numbers_bounds hm
        rw [List.pairwise_map]
        refine (generate_numbers_pairwise dp 1 ((monthDays y m : Nat) : Int)).imp_of_mem ?_
        intro d1 d2 hd1 hd2 h12
        have hdb1 := mem_generate_numbers_bounds hd1
        have hdb2 := mem_generate_numbers_bounds hd2
        have hdays : ((monthDays y m : Nat) : Int) ≤ 31 := by
          have := monthDays_le y m
          omega
        exact date_key_lt ⟨hyb.1, hyb.2⟩ ⟨hmb.1, hmb.2⟩ ⟨hdb1.1, by omega⟩
          ⟨hyb.1, hyb.2⟩ ⟨hmb.1, hmb.2⟩ ⟨hdb2.1, by omega⟩
          (Or.inr ⟨rfl, Or.inr ⟨rfl, h12⟩⟩)
      · refine (generate_numbers_pairwise mp 1 12).imp_of_mem ?_
        intro m1 m2 hm1 hm2 h12 x hx z hz
        simp only [List.mem_map] at hx hz
        obtain ⟨d1, hd1, rfl⟩ := hx
        obtain ⟨d2, hd2, rfl⟩ := hz
        have hmb1 := mem_generate_numbers_bounds hm1
        have hmb2 := mem_generate_numbers_bounds hm2
        have hdb1 := mem_generate_numbers_bounds hd1
        have hdb2 := mem_generate_numbers_bounds hd2
        have hdays1 : ((monthDays y m1 : Nat) : Int) ≤ 31 := by
          have := monthDays_le y m1
          omega
        have hdays2 : ((monthDays y m2 : Nat) : Int) ≤ 31 := by
          have := monthDays_le y m2
          omega
        exact date_key_lt ⟨hyb.1, hyb.2⟩ ⟨hmb1.1, hmb1.2⟩ ⟨hdb1.1, by omega⟩
          ⟨hyb.1, hyb.2⟩ ⟨hmb2.1, hmb2.2⟩ ⟨hdb2.1, by omega⟩
          (Or.inr ⟨rfl, Or.inl h12⟩)
    · refine (generate_numbers_pairwise yp 1900 2999).imp_of_mem ?_
      intro y1 y2 hy1 hy2 h12 x hx z hz
      obtain ⟨m1, d1, hm1a, hm1b, hd1a, hd1b, rfl⟩ := mem_dateInner hx
      obtain ⟨m2, d2, hm2a, hm2b, hd2a, hd2b, rfl⟩ := mem_dateInner hz
      have hyb1 := mem_generate_numbers_bounds hy1
      have hyb2 := mem_generate_numbers_bounds hy2
      exact date_key_lt ⟨hyb1.1, hyb1.2⟩ ⟨hm1a, hm1b⟩ ⟨hd1a, hd1b⟩
        ⟨hyb2.1, hyb2.2⟩ ⟨hm2a, hm2b⟩ ⟨hd2a, hd2b⟩ (Or.inl h12)

/-- Witness for C4 at the concrete patterns `"1990"`, `"02"`, `"2-"`. -/
theorem generate_dates_spec_witness :
    (∀ s : List Char, s ∈ generate_dates ['1', '9', '9', '0'] ['0', '2'] ['2', '-'] ↔
        ∃ y m d : Int, y ∈ generate_numbers ['1', '9', '9', '0'] 1900 2999 ∧
          m ∈ generate_numbers ['0', '2'] 1 12 ∧
          d ∈ generate_numbers ['2', '-'] 1 ((specDays y m : Nat) : Int) ∧
          s = padNum 4 y.toNat ++ padNum 2 m.toNat ++ padNum 2 d.toNat)
      ∧ (generate_dates ['1', '9', '9', '0'] ['0', '2'] ['2', '-']).Pairwise
          fun s t => digitsToNat s < digitsToNat t :=
  generate_dates_spec ['1', '9', '9', '0'] ['0', '2'] ['2', '-']
    (by decide) (by decide) (by decide) (by decide) (by decide) (by decide)

/-- C5 counterexample: on the pattern with year `"200-"`, month `"02"`,
day `"--"`, `estimate_dates` does NOT return 281: the decade 2000-2009
contains three leap years (2000, 2004, 2008), not one. -/
theorem estimate_dates_c5_counterexample :
    estimate_dates (parse_pattern ("------200-02------".data)) ≠ 281 := by decide

/-- C5 amended: on the pattern with year `"200-"`, month `"02"`, day
`"--"`, `estimate_dates` returns 283 = 3 leap years × 29 + 7 non-leap
years × 28. -/
theorem estimate_dates_c5_amended :
    estimate_dates (parse_pattern ("------200-02------".data)) = 283 := by decide

/-! ### The estimate's per-month decision rule (C6) -/

/-- The claim's exact-path day count: clamp the bounds obtained by
replacing wildcards with `'0'` (lower) and `'9'` (upper) to
`[1, max_day]`, and count the day values in the clamped range that match
the day pattern position-by-position. -/
def specCountDays (day : List Char) (max_day : Nat) : Nat :=
  ((Finset.Icc (max 1 (digitsToNat (subst '0' day)))
      (min max_day (digitsToNat (subst '9' day)))).filter
    fun d => ∀ i < day.length,
      day.getD i ' ' = '-' ∨ day.getD i ' ' = (padNum day.length d).getD i ' ').card

/-- The claim's fast-path formula: non-leap-year count times the common
max-day, plus a leap-year term in which 29 replaces the common max for
February only. -/
def spec_fast_contribution (month : Int) (common_max leap_count nonleap_count : Nat) :
    Nat :=
  nonleap_count * common_max + leap_count * (if month = 2 then 29 else common_max)

/-- The claim's exact-path formula: for each of the leap and non-leap year
subsets, the matching-day count under the subset's applicable max-day,
times the subset's year count, summed. -/
def spec_exact_contribution (years : List Int) (month : Int) (day : List Char)
    (common_max : Nat) : Nat :=
  (years.filter fun y => decide (specLeap y)).length
      * specCountDays day (if month = 2 then 29 else common_max)
    + (years.filter fun y => decide (¬ specLeap y)).length * specCountDays day common_max

theorem is_leap_year_eq_decide (y : Int) : is_leap_year y = decide (specLeap y) := by
  rw [Bool.eq_iff_iff, is_leap_year_iff, decide_eq_true_iff]

theorem not_is_leap_year_eq_decide (y : Int) :
    (!is_leap_year y) = decide (¬ specLeap y) := by
  rw [Bool.eq_iff_iff, Bool.not_eq_true', decide_eq_true_iff, ← is_leap_year_iff]
  simp

theorem calc_group_days_eq (g : List Int) (day : List Char) (maxd : Nat) :
    calc_group_days g day maxd = g.length * specCountDays day maxd := by
  unfold calc_group_days specCountDays
  by_cases hg : g = []
  · simp [hg]
  · rw [if_neg hg]
    dsimp only
    by_cases hss : max 1 (digitsToNat (subst '0' day))
        > min maxd (digitsToNat (subst '9' day))
    · rw [if_pos hss, Finset.Icc_eq_empty (by omega), Finset.filter_empty,
        Finset.card_empty, Nat.mul_zero]
    · rw [if_neg hss]
      congr 1
      have hpq : ∀ d : Nat, rxMatch day (padNum day.length d)
          = decide (∀ i < day.length, day.getD i ' ' = '-'
              ∨ day.getD i ' ' = (padNum day.length d).getD i ' ') := by
        intro d
        rw [Bool.eq_iff_iff, decide_eq_true_iff, rxMatch_iff]
        exact ⟨fun h => h.2, fun h => ⟨le_of_eq (padNum_length _ _).symm, h⟩⟩
      set start := max 1 (digitsToNat (subst '0' day)) with hstart
      set stop := min maxd (digitsToNat (subst '9' day)) with hstop
      rw [List.countP_eq_length_filter, ← List.range'_eq_map_range]
      rw [Nat.Icc_eq_range', Finset.card_def, Finset.filter_val]
      rw [show (⟨(↑(List.range' start (stop + 1 - start)) : Multiset Nat),
            List.nodup_range' _ _⟩ : Finset Nat).val
          = (↑(List.range' start (stop + 1 - start)) : Multiset Nat) from rfl]
      rw [Multiset.filter_coe, Multiset.coe_card]
      exact congrArg List.length (List.filter_congr fun d _ => hpq d)

/-- C6: inside `estimate_dates`, the contribution of each candidate month
uses the fast path exactly when the day pattern contains a wildcard and no
literal digit, in which case it equals the claim's fast formula
(non-leap count × common max-day plus the leap-year term with 29 in place
of the common max for February only); otherwise it equals the claim's
exact formula over the leap and non-leap subsets with bounds clamped to
`[1, subset max-day]`.  `specDays 2001 month` is the common (non-leap)
max-day, as the source obtains via `calendar.monthrange(2001, month)`. -/
theorem month_contribution_spec (years : List Int) (day_part : List Char) (month : Int)
    (hlen : day_part.length = 2) (hdc : ∀ c ∈ day_part, c.isDigit ∨ c = '-') :
    month_contribution years ((years.filter fun y => is_leap_year y).length)
        years.length day_part month
      = if '-' ∈ day_part ∧ ¬ ∃ c ∈ day_part, c.isDigit then
          spec_fast_contribution month (specDays 2001 month)
            ((years.filter fun y => decide (specLeap y)).length)
            ((years.filter fun y => decide (¬ specLeap y)).length)
        else spec_exact_contribution years month day_part (specDays 2001 month) := by
  have hleapf : (years.filter fun y => is_leap_year y)
      = years.filter fun y => decide (specLeap y) :=
    List.filter_congr fun y _ => is_leap_year_eq_decide y
  have hnotf : (years.filter fun y => !is_leap_year y)
      = years.filter fun y => decide (¬ specLeap y) :=
    List.filter_congr fun y _ => not_is_leap_year_eq_decide y
  have hsum : years.length = (years.filter fun y => decide (specLeap y)).length
      + (years.filter fun y => decide (¬ specLeap y)).length := by
    rw [← hleapf, ← hnotf]
    exact List.length_eq_length_filter_add _
  have hcond : ((!(day_part.any Char.isDigit)) = true ∧ day_part.count '-' > 0)
      ↔ ('-' ∈ day_part ∧ ¬ ∃ c ∈ day_part, c.isDigit) := by
    simp only [gt_iff_lt, List.count_pos_iff, Bool.not_eq_true', List.any_eq_false]
    constructor
    · rintro ⟨hall, hmem⟩
      exact ⟨hmem, fun hx => by obtain ⟨c, hc, hdig⟩ := hx; exact hall c hc hdig⟩
    · rintro ⟨hmem, hnex⟩
      exact ⟨fun c hc hdig => hnex ⟨c, hc, hdig⟩, hmem⟩
  unfold month_contribution
  dsimp only
  by_cases h : '-' ∈ day_part ∧ ¬ ∃ c ∈ day_part, c.isDigit
  · rw [if_pos (hcond.2 h), if_pos h]
    unfold estimate_wildcard_days spec_fast_contribution
    rw [hleapf, monthDays_eq_specDays]
    by_cases h2 : month = 2
    · subst h2
      rw [if_neg (by norm_num), if_pos rfl,
        show specDays 2001 2 = 28 from by decide]
      omega
    · rw [if_pos h2, if_neg h2]
      rw [hsum]
      ring
  · rw [if_neg (fun hc => h (hcond.1 hc)), if_neg h]
    unfold calculate_exact_days spec_exact_contribution
    rw [calc_group_days_eq, calc_group_days_eq, hleapf, hnotf, monthDays_eq_specDays]
    by_cases h2 : month = 2 <;> simp [h2]

/-- Witness for C6 at `years = [2000, 2001, 1900]`, day pattern `"2-"`
(exact path), month 2. -/
theorem month_contribution_spec_witness :
    month_contribution [2000, 2001, 1900]
        (([2000, 2001, 1900].filter fun y => is_leap_year y).length)
        [2000, 2001, 1900].length ['2', '-'] 2
      = if '-' ∈ ['2', '-'] ∧ ¬ ∃ c ∈ ['2', '-'], c.isDigit then
          spec_fast_contribution 2 (specDays 2001 2)
            (([2000, 2001, 1900].filter fun y => decide (specLeap y)).length)
            (([2000, 2001, 1900].filter fun y => decide (¬ specLeap y)).length)
        else spec_exact_contribution [2000, 2001, 1900] 2 ['2', '-'] (specDays 2001 2) :=
  month_contribution_spec [2000, 2001, 1900] ['2', '-'] 2 (by decide) (by decide)

/-- C7: for a 6-character digit/wildcard region pattern and any whitelist
of digit-string codes, `filter_regions` returns exactly the whitelist keys
matching the pattern position-by-position: the wildcard matches any single
character (which must exist, hence `i < code.length`), and every
non-wildcard pattern character equals the code's character at the same
position. -/
theorem filter_regions_spec (pattern : List Char) (valid_regions : List (List Char))
    (hp6 : pattern.length = 6) (hpc : ∀ c ∈ pattern, c.isDigit ∨ c = '-')
    (hws : ∀ w ∈ valid_regions, ∀ c ∈ w, c.isDigit) :
    ∀ code, code ∈ filter_regions pattern valid_regions ↔
      code ∈ valid_regions ∧ ∀ i < 6, i < code.length ∧
        (pattern.getD i ' ' = '-' ∨ pattern.getD i ' ' = code.getD i ' ') := by
  intro code
  unfold filter_regions
  rw [List.mem_filter]
  constructor
  · rintro ⟨hmem, hrx⟩
    obtain ⟨hlen, hpos⟩ := (rxMatch_iff _ _).1 hrx
    rw [hp6] at hlen hpos
    exact ⟨hmem, fun i hi => ⟨by omega, hpos i hi⟩⟩
  · rintro ⟨hmem, hiff⟩
    refine ⟨hmem, (rxMatch_iff _ _).2 ⟨?_, ?_⟩⟩
    · have := (hiff 5 (by norm_num)).1
      omega
    · intro i hi
      rw [hp6] at hi
      exact (hiff i hi).2

/-- Witness for C7 at the pattern `"1105--"` over a three-entry whitelist,
evaluated at the code `"110105"`. -/
theorem filter_regions_spec_witness :
    ['1', '1', '0', '1', '0', '5'] ∈ filter_regions ['1', '1', '0', '1', '0', '-']
        [['1', '1', '0', '1', '0', '5'], ['3', '2', '0', '5', '0', '8'],
          ['1', '1', '0', '1', '0', '4']] ↔
      ['1', '1', '0', '1', '0', '5'] ∈ [['1', '1', '0', '1', '0', '5'],
          ['3', '2', '0', '5', '0', '8'], ['1', '1', '0', '1', '0', '4']]
        ∧ ∀ i < 6, i < (['1', '1', '0', '1', '0', '5'] : List Char).length ∧
          (List.getD ['1', '1', '0', '1', '0', '-'] i ' ' = '-'
            ∨ List.getD ['1', '1', '0', '1', '0', '-'] i ' '
              = List.getD ['1', '1', '0', '1', '0', '5'] i ' ') :=
  filter_regions_spec ['1', '1', '0', '1', '0', '-']
    [['1', '1', '0', '1', '0', '5'], ['3', '2', '0', '5', '0', '8'],
      ['1', '1', '0', '1', '0', '4']] (by decide) (by decide) (by decide)
    ['1', '1', '0', '1', '0', '5']

/-- C8: `generate_components` fails (raises `ValueError`, modelled as
`Except.error`) precisely when `filter_regions` returns no region codes —
the embedding's `if regions = []` guard sits before the date and sequence
enumeration, matching the source, where the raise precedes both.  An empty
year or month candidate set is not an error: `estimate_dates` returns 0,
date enumeration yields nothing, and with a nonempty region match
`generate_components` succeeds with an empty candidate list. -/
theorem generate_components_error_spec (p : Pattern) (valid_regions : List (List Char)) :
    (filter_regions p.region valid_regions = [] →
        generate_components p valid_regions = Except.error "无匹配的行政区划代码")
      ∧ (filter_regions p.region valid_regions ≠ [] →
          ∃ l, generate_components p valid_regions = Except.ok l)
      ∧ ((generate_numbers p.year 1900 2999 = [] ∨ generate_numbers p.month 1 12 = []) →
          estimate_dates p = 0 ∧ generate_dates p.year p.month p.day = []
            ∧ (filter_regions p.region valid_regions ≠ [] →
                generate_components p valid_regions = Except.ok [])) := by
  refine ⟨?_, ?_, ?_⟩
  · intro h
    unfold generate_components
    rw [if_pos h]
  · intro h
    unfold generate_components
    rw [if_neg h]
    exact ⟨_, rfl⟩
  · intro h
    have hdates : generate_dates p.year p.month p.day = [] := by
      unfold generate_dates
      rcases h with h | h
      · rw [h]
        rfl
      · rw [h]
        simp
    refine ⟨?_, hdates, ?_⟩
    · unfold estimate_dates
      dsimp only
      rcases h with h | h
      · rw [if_pos h]
      · by_cases hy : generate_numbers p.year 1900 2999 = []
        · rw [if_pos hy]
        · rw [if_neg hy, if_pos h]
    · intro hr
      unfold generate_components
      rw [if_neg hr]
      dsimp only
      rw [hdates]
      simp

/-- Witness for C8: an unmatched region pattern produces the error, and a
year pattern with no candidate in `[1900, 2999]` gives estimate 0. -/
theorem generate_components_error_spec_witness :
    generate_components (parse_pattern ("999999199001010011".data))
        [['1', '1', '0', '1', '0', '5']] = Except.error "无匹配的行政区划代码"
      ∧ estimate_dates (parse_pattern ("110105000001010011".data)) = 0 :=
  ⟨(generate_components_error_spec (parse_pattern ("999999199001010011".data))
      [['1', '1', '0', '1', '0', '5']]).1 (by decide),
    ((generate_components_error_spec (parse_pattern ("110105000001010011".data))
      [['1', '1', '0', '1', '0', '5']]).2.2 (Or.inl (by decide))).1⟩

/-! ### Deduplication (C9) -/

/-- The claim's characterisation of the dedup result: keep each element at
its first occurrence, dropping all its later duplicates, preserving the
order of first occurrences. -/
def firstSeen : List (List Char) → List (List Char)
  | [] => []
  | x :: xs => x :: firstSeen (xs.filter fun a => !(a == x))
termination_by l => l.length
decreasing_by
simp only [List.length_cons]
exact Nat.lt_succ_of_le (List.length_filter_le _ _)

theorem mem_dedupAux (l : List (List Char)) :
    ∀ (seen : List (List Char)) (x : List Char),
      x ∈ dedupAux seen l ↔ x ∈ l ∧ x ∉ seen := by
  induction l with
  | nil => intro seen x; simp [dedupAux]
  | cons a t ih =>
    intro seen x
    unfold dedupAux
    by_cases ha : a ∈ seen
    · rw [if_pos ha, ih]
      constructor
      · rintro ⟨hx, hn⟩
        exact ⟨List.mem_cons_of_mem _ hx, hn⟩
      · rintro ⟨hx, hn⟩
        rcases List.mem_cons.1 hx with rfl | hx
        · exact absurd ha hn
        · exact ⟨hx, hn⟩
    · rw [if_neg ha]
      constructor
      · intro hx
        rcases List.mem_cons.1 hx with rfl | hx
        · exact ⟨List.mem_cons_self _ _, ha⟩
        · obtain ⟨h1, h2⟩ := (ih _ _).1 hx
          exact ⟨List.mem_cons_of_mem _ h1,
            fun hs => h2 (List.mem_cons_of_mem _ hs)⟩
      · rintro ⟨hx, hn⟩
        by_cases hxa : x = a
        · subst hxa
          exact List.mem_cons_self _ _
        · rcases List.mem_cons.1 hx with rfl | hx'
          · exact absurd rfl hxa
          · refine List.mem_cons_of_mem _ ((ih _ _).2 ⟨hx', fun hs => ?_⟩)
            rcases List.mem_cons.1 hs with rfl | hs'
            · exact hxa rfl
            · exact hn hs'

theorem nodup_dedupAux (l : List (List Char)) :
    ∀ seen : List (List Char), (dedupAux seen l).Nodup := by
  induction l with
  | nil => intro seen; simp [dedupAux]
  | cons a t ih =>
    intro seen
    unfold dedupAux
    by_cases ha : a ∈ seen
    · rw [if_pos ha]
      exact ih seen
    · rw [if_neg ha, List.nodup_cons]
      exact ⟨fun hmem => ((mem_dedupAux _ _ _).1 hmem).2 (List.mem_cons_self _ _),
        ih (a :: seen)⟩

theorem dedupAux_eq_firstSeen (l : List (List Char)) :
    ∀ seen : List (List Char),
      dedupAux seen l = firstSeen (l.filter fun a => decide (a ∉ seen)) := by
  induction l with
  | nil => intro seen; simp [dedupAux, firstSeen]
  | cons a t ih =>
    intro seen
    unfold dedupAux
    rw [List.filter_cons]
    by_cases ha : a ∈ seen
    · rw [if_pos ha, show (decide (a ∉ seen)) = false by simp [ha]]
      simp only [Bool.false_eq_true, if_false]
      exact ih seen
    · rw [if_neg ha, show (decide (a ∉ seen)) = true by simp [ha], if_pos rfl]
      rw [firstSeen]
      congr 1
      rw [ih (a :: seen), List.filter_filter]
      refine congrArg firstSeen (List.filter_congr fun b _ => ?_)
      by_cases hba : b = a
      · simp [hba, List.mem_cons]
      · by_cases hbs : b ∈ seen <;> simp [hba, hbs, List.mem_cons]

/-- C9: for every accumulated candidate list, the dedup pass keeps each
distinct string exactly once, at its first occurrence, in first-seen
order: it equals the recursive "keep the head, drop its later duplicates"
function, has the same members, and is duplicate-free; and
`parallel_generate` returns exactly this pass applied to the accumulated
filtered results. -/
theorem dedup_spec :
    (∀ l : List (List Char), dedupFirst l = firstSeen l)
      ∧ (∀ (l : List (List Char)) (x : List Char), x ∈ dedupFirst l ↔ x ∈ l)
      ∧ (∀ l : List (List Char), (dedupFirst l).Nodup)
      ∧ ∀ (input_id : List Char) (valid_regions : List (List Char)),
          parallel_generate input_id valid_regions
            = (generate_components (parse_pattern input_id) valid_regions).map
                fun comps =>
                  dedupFirst (((comps.map process_batch).flatten).filter fun id_num =>
                    (parse_pattern input_id).check == '-'
                      || (parse_pattern input_id).check == id_num.getLastD ' ') := by
  refine ⟨?_, ?_, ?_, ?_⟩
  · intro l
    unfold dedupFirst
    rw [dedupAux_eq_firstSeen]
    congr 1
    simp
  · intro l x
    unfold dedupFirst
    rw [mem_dedupAux]
    simp
  · intro l
    exact nodup_dedupAux l []
  · intro input_id valid_regions
    rfl

/-! ### The advisory total (C10) -/

theorem listProd_length (ls : List (List Char)) :
    (listProd ls).length = (ls.map List.length).prod := by
  induction ls with
  | nil => simp [listProd]
  | cons xs rest ih =>
    simp only [listProd, List.length_flatMap, List.map_map, List.map_cons, List.prod_cons]
    rw [show (List.length ∘ fun x => (listProd rest).map fun r => x :: r)
        = fun _ : Char => (listProd rest).length from funext fun x => by simp]
    rw [List.map_const', List.sum_replicate, smul_eq_mul, ih]

theorem prod_map_choice (pattern : List Char) :
    (pattern.map fun c => (if c = '-' then "0123456789".data else [c]).length).prod
      = 10 ^ pattern.count '-' := by
  induction pattern with
  | nil => simp
  | cons c t ih =>
    simp only [List.map_cons, List.prod_cons, ih]
    by_cases hc : c = '-'
    · subst hc
      rw [if_pos rfl, List.count_cons_self, pow_succ,
        show ("0123456789".data).length = 10 from by decide]
      ring
    · rw [if_neg hc, List.count_cons_of_ne (fun h => hc h.symm), List.length_singleton,
        one_mul]

theorem generate_sequence_length (pattern : List Char) :
    (generate_sequence pattern).length = 10 ^ pattern.count '-' := by
  unfold generate_sequence
  by_cases h : pattern.count '-' = 0
  · rw [if_pos h, h]
    rfl
  · rw [if_neg h, listProd_length, List.map_map]
    rw [show (List.length ∘ fun c => if c = '-' then "0123456789".data else [c])
        = fun c => (if c = '-' then "0123456789".data else [c]).length from rfl]
    exact prod_map_choice pattern

/-- C10: the advisory `estimate_total` is the product of the three
independent per-dimension counts — matched region codes × date estimate ×
`10 ^ (number of sequence wildcards)` — and the third factor equals the
number of strings `generate_sequence` yields for the sequence field. -/
theorem estimate_total_spec (p : Pattern) (valid_regions : List (List Char)) :
    estimate_total p valid_regions
        = (filter_regions p.region valid_regions).length * estimate_dates p
            * 10 ^ (p.sequence.count '-')
      ∧ (generate_sequence p.sequence).length = 10 ^ (p.sequence.count '-') :=
  ⟨rfl, generate_sequence_length p.sequence⟩

/-! ### Checksum filtering in `parallel_generate` (C2) -/

theorem mem_listProd_length (ls : List (List Char)) :
    ∀ s ∈ listProd ls, s.length = ls.length := by
  induction ls with
  | nil =>
    intro s hs
    simp only [listProd, List.mem_singleton] at hs
    simp [hs]
  | cons xs rest ih =>
    intro s hs
    simp only [listProd, List.mem_flatMap, List.mem_map] at hs
    obtain ⟨x, _, r, hr, rfl⟩ := hs
    simp [ih r hr]

theorem generate_sequence_mem_length (pattern : List Char) :
    ∀ s ∈ generate_sequence pattern, s.length = pattern.length := by
  unfold generate_sequence
  by_cases h : pattern.count '-' = 0
  · rw [if_pos h]
    intro s hs
    rw [List.mem_singleton] at hs
    rw [hs]
  · rw [if_neg h]
    intro s hs
    rw [mem_listProd_length _ s hs, List.length_map]

theorem mem_generate_dates_length {yp mp dp : List Char} {s : List Char}
    (hs : s ∈ generate_dates yp mp dp) : s.length = 8 := by
  unfold generate_dates at hs
  simp only [List.mem_flatMap, List.mem_map] at hs
  obtain ⟨y, _, m, _, d, _, rfl⟩ := hs
  simp [padNum_length]

theorem mem_dedupFirst (l : List (List Char)) (x : List Char) :
    x ∈ dedupFirst l ↔ x ∈ l := by
  unfold dedupFirst
  rw [mem_dedupAux]
  simp

/-- C2: whenever `parallel_generate` succeeds, every identity number in
its output ends in the check code of its own first 17 characters; a
candidate produced by `process_batch` is kept in the output exactly when
the pattern's check field is the wildcard `'-'` or literally equals the
computed check character; and if a literal check field matches no
candidate's computed checksum, the output is empty. -/
theorem parallel_generate_check_spec
    (input_id : List Char) (valid_regions : List (List Char))
    (h18 : input_id.length = 18)
    (hws : ∀ w ∈ valid_regions, w.length = 6 ∧ ∀ c ∈ w, c.isDigit)
    (hyc : ∀ c ∈ (parse_pattern input_id).year, c.isDigit ∨ c = '-')
    (hmc : ∀ c ∈ (parse_pattern input_id).month, c.isDigit ∨ c = '-')
    (hdc : ∀ c ∈ (parse_pattern input_id).day, c.isDigit ∨ c = '-')
    (hsc : ∀ c ∈ (parse_pattern input_id).sequence, c.isDigit ∨ c = '-')
    (comps : List (List Char × List Char × List Char))
    (hc : generate_components (parse_pattern input_id) valid_regions = Except.ok comps)
    (out : List (List Char))
    (ho : parallel_generate input_id valid_regions = Except.ok out) :
    (∀ id_num ∈ out, id_num.getLastD ' ' = calculate_check_code (id_num.take 17))
      ∧ (∀ id_num ∈ (comps.map process_batch).flatten,
          (id_num ∈ out ↔ ((parse_pattern input_id).check = '-'
            ∨ (parse_pattern input_id).check = id_num.getLastD ' ')))
      ∧ ((∀ id_num ∈ (comps.map process_batch).flatten,
            (parse_pattern input_id).check ≠ '-'
              ∧ (parse_pattern input_id).check ≠ id_num.getLastD ' ') → out = []) := by
  have hpg : parallel_generate input_id valid_regions
      = (generate_components (parse_pattern input_id) valid_regions).map
          fun comps =>
            dedupFirst (((comps.map process_batch).flatten).filter fun id_num =>
              (parse_pattern input_id).check == '-'
                || (parse_pattern input_id).check == id_num.getLastD ' ') := rfl
  rw [hpg, hc] at ho
  simp only [Except.map, Except.ok.injEq] at ho
  have hout : out = dedupFirst (((comps.map process_batch).flatten).filter fun id_num =>
      (parse_pattern input_id).check == '-'
        || (parse_pattern input_id).check == id_num.getLastD ' ') := ho.symm
  have hcomps : comps
      = (filter_regions (parse_pattern input_id).region valid_regions).flatMap fun r =>
          (generate_dates (parse_pattern input_id).year (parse_pattern input_id).month
            (parse_pattern input_id).day).flatMap fun d =>
            (generate_sequence (parse_pattern input_id).sequence).map fun s => (r, d, s) := by
    unfold generate_components at hc
    dsimp only at hc
    by_cases hre : filter_regions (parse_pattern input_id).region valid_regions = []
    · rw [if_pos hre] at hc
      cases hc
    · rw [if_neg hre] at hc
      exact (Except.ok.inj hc).symm
  have hseqlen : (parse_pattern input_id).sequence.length = 3 := by
    show ((input_id.drop 14).take 3).length = 3
    rw [List.length_take, List.length_drop, h18]
    decide
  have hshape : ∀ id_num ∈ (comps.map process_batch).flatten,
      ∃ id17 : List Char, id17.length = 17
        ∧ id_num = id17 ++ [calculate_check_code id17] := by
    intro id_num hid
    simp only [List.mem_flatten, List.mem_map] at hid
    obtain ⟨batch, ⟨args, hargs, rfl⟩, hin⟩ := hid
    unfold process_batch at hin
    rw [List.mem_singleton] at hin
    subst hin
    refine ⟨args.1 ++ args.2.1 ++ args.2.2, ?_, rfl⟩
    rw [hcomps] at hargs
    simp only [List.mem_flatMap, List.mem_map] at hargs
    obtain ⟨r, hr, d, hd, s, hs, rfl⟩ := hargs
    have hrlen : r.length = 6 :=
      (hws r (List.mem_filter.1 hr).1).1
    have hdlen : d.length = 8 := mem_generate_dates_length hd
    have hslen : s.length = 3 := by
      rw [generate_sequence_mem_length _ s hs, hseqlen]
    simp [List.length_append, hrlen, hdlen, hslen]
  refine ⟨?_, ?_, ?_⟩
  · intro id_num hid
    rw [hout, mem_dedupFirst, List.mem_filter] at hid
    obtain ⟨hmem, _⟩ := hid
    obtain ⟨id17, hlen17, rfl⟩ := hshape _ hmem
    rw [List.getLastD_concat]
    conv_rhs => rw [← hlen17]
    rw [List.take_left]
  · intro id_num hid
    rw [hout, mem_dedupFirst, List.mem_filter]
    constructor
    · rintro ⟨_, hp⟩
      simpa using hp
    · intro hp
      refine ⟨hid, ?_⟩
      simpa using hp
  · intro hall
    rw [hout, List.filter_eq_nil_iff.2 ?_]
    · rfl
    · intro a ha
      obtain ⟨h1, h2⟩ := hall a ha
      simp only [Bool.or_eq_true, beq_iff_eq, not_or]
      exact ⟨h1, h2⟩

/-- Witness for C2 at the fully literal input `"11010519900101001-"` over a
one-entry whitelist: the single output `"110105199001010010"` ends in the
check code of its first 17 characters. -/
theorem parallel_generate_check_spec_witness :
    ("110105199001010010".data).getLastD ' '
      = calculate_check_code (("110105199001010010".data).take 17) :=
  (parallel_generate_check_spec ("11010519900101001-".data)
    [['1', '1', '0', '1', '0', '5']] (by decide) (by decide) (by decide) (by decide)
    (by decide) (by decide)
    [(['1', '1', '0', '1', '0', '5'],
      ['1', '9', '9', '0', '0', '1', '0', '1'], ['0', '0', '1'])]
    (by rfl) [("110105199001010010".data)] (by rfl)).1
    ("110105199001010010".data) (by decide)

theorem weights_eq : weights = [7, 9, 10, 5, 8, 4, 2, 1, 6, 3, 7, 9, 10, 5, 8, 4, 2] := rfl

theorem sum_zip_map_eq (l : List Char) (w : List Nat) :
    ((l.zip w).map fun q => digitVal q.1 * q.2).sum
      = ∑ i in Finset.range (min l.length w.length), digitVal (l.getD i ' ') * w.getD i 0 := by
  induction l generalizing w with
  | nil => simp
  | cons c t ih =>
    cases w with
    | nil => simp
    | cons a w' =>
      simp only [List.zip_cons_cons, List.map_cons, List.sum_cons, List.length_cons]
      rw [Nat.succ_min_succ, Finset.sum_range_succ']
      simp only [List.getD_cons_succ, List.getD_cons_zero]
      rw [ih w']
      omega

theorem check_codes_getD_mem (k : Nat) (hk : k < 11) :
    check_codes.getD k ' ' ∈ "0123456789X".data := by
  have h : ∀ j : Fin 11, check_codes.getD (j : Nat) ' ' ∈ "0123456789X".data := by decide
  exact h ⟨k, hk⟩

/-- C1: for a 17-character digit string, `calculate_check_code` returns the
character of `"10X98765432"` at index `(Σ digitᵢ · weightᵢ) % 11` with the
weight sequence `(7,9,10,5,8,4,2,1,6,3,7,9,10,5,8,4,2)`, and the result
always lies in `"0123456789X"`.  Determinism is inherent: the embedding is
a pure function of `id_17`. -/
theorem checksum_spec (id_17 : List Char) (h17 : id_17.length = 17)
    (hd : ∀ c ∈ id_17, c.isDigit) :
    calculate_check_code id_17
        = ("10X98765432".data).getD
            ((∑ i in Finset.range 17,
                digitVal (id_17.getD i ' ')
                  * List.getD [7, 9, 10, 5, 8, 4, 2, 1, 6, 3, 7, 9, 10, 5, 8, 4, 2] i 0) % 11) ' '
      ∧ calculate_check_code id_17 ∈ "0123456789X".data := by
  constructor
  · unfold calculate_check_code
    rw [sum_zip_map_eq]
    have hmin : min id_17.length weights.length = 17 := by
      rw [h17]; rfl
    rw [hmin, ← weights_eq]
    rfl
  · unfold calculate_check_code
    exact check_codes_getD_mem _ (Nat.mod_lt _ (by norm_num))

/-- Witness for C1 at the concrete 17-digit prefix `"11010519491231002"`. -/
theorem checksum_spec_witness :
    calculate_check_code ("11010519491231002".data) ∈ "0123456789X".data :=
  (checksum_spec ("11010519491231002".data) (by decide) (by decide)).2

end ChineseId
